import Mathlib

/-!
A shallow embedding of the broadcast-hub program in `src/matchingapp/main.go`
(gorilla/websocket chat hub).  The embedding covers:

* the coordinator (`Hub.run`), modelled as a step function on a hub state
  that also emits a trace of the primitive channel/map actions it performs
  (map insert, map delete, channel close, channel enqueue);
* the per-connection Reader (`Client.readPump`), modelled as a function of
  the sequence of read results delivered by the connection;
* the per-connection Writer (`Client.writePump`), modelled as a step
  function over select outcomes (message available on the send channel, or
  ticker tick), with connection write success or failure made explicit.

Go concurrency is abstracted as usual for a single-coordinator design: the
hub processes one event at a time (the select loop serialises them), so the
hub is a fold over an event list; the per-connection goroutines are folds
over their own input sequences.  Machine integers do not overflow in the
source (all counters are small), so Nat is used directly.  Map iteration
order in `for client := range h.clients` is unspecified in Go; the model
fixes insertion order, and every claim proved below is insensitive to that
order (all statements are per-client).
-/

namespace MatchingApp

/-- An opaque message payload, a Go byte slice. -/
abbrev Msg := List Nat

/-- Outbound queue capacity: `make(chan []byte, 256)` in `serveWs`. -/
def sendChanCapacity : Nat := 256

/-- Inbound frame size limit: `c.conn.SetReadLimit(512)` in `readPump`. -/
def readLimitBytes : Nat := 512

/-- Read deadline window: `SetReadDeadline(time.Now().Add(60 * time.Second))`. -/
def readDeadlineSeconds : Nat := 60

/-- Write deadline: `SetWriteDeadline(time.Now().Add(10 * time.Second))`. -/
def writeDeadlineSeconds : Nat := 10

/-- Heartbeat interval: `time.NewTicker(54 * time.Second)` in `writePump`. -/
def pingIntervalSeconds : Nat := 54

/-- One connection entry as the hub sees it: the client identity (a `*Client`
pointer in Go, abstracted as a Nat), its buffered send channel contents, the
closed flag of that channel, and whether the client is currently a key of
`h.clients`. Entries are never physically deleted from the model list when
the hub drops a client; `live := false` records deletion from the map while
the channel object itself survives (the Writer still drains it). -/
structure Entry where
  cid : Nat
  buf : List Msg
  closed : Bool
  live : Bool
deriving Repr, DecidableEq

/-- Coordinator state: the list of all entries ever registered. -/
structure HubState where
  entries : List Entry
deriving Repr, DecidableEq

/-- `newHub()`: empty client map. -/
def hubInit : HubState := ⟨[]⟩

/-- The three inputs of the `Hub.run` select loop. -/
inductive Event where
  | register (cid : Nat)
  | unregister (cid : Nat)
  | broadcast (m : Msg)
deriving Repr, DecidableEq

/-- The primitive effects `Hub.run` performs, recorded as a trace:
`h.clients[client] = true`, `delete(h.clients, client)`, `close(client.send)`
and `client.send <- message`. -/
inductive Act where
  | addClient (cid : Nat)
  | removeClient (cid : Nat)
  | closeChan (cid : Nat)
  | enqueue (cid : Nat) (m : Msg)
deriving Repr, DecidableEq

/-- The entry of a given client, if any was ever registered. -/
def entryFor (s : HubState) (cid : Nat) : Option Entry :=
  s.entries.find? (fun e => e.cid == cid)

/-- Membership of `h.clients` (the live set). -/
def isLive (s : HubState) (cid : Nat) : Bool :=
  match entryFor s cid with
  | some e => e.live
  | none => false

/-- Whether the send channel of a client has been closed. -/
def isClosedB (s : HubState) (cid : Nat) : Bool :=
  match entryFor s cid with
  | some e => e.closed
  | none => false

/-- Buffered contents of the send channel of a client. -/
def getBuf (s : HubState) (cid : Nat) : Option (List Msg) :=
  (entryFor s cid).map Entry.buf

/-- Number of buffered messages in the send channel of a client. -/
def bufLen (s : HubState) (cid : Nat) : Nat :=
  ((getBuf s cid).getD []).length

/-- Effect of `h.clients[client] = true` on one entry (map assignment:
insert-or-overwrite with value true; the channel is untouched). -/
def registerEntry (cid : Nat) (e : Entry) : Entry :=
  if e.cid == cid then { e with live := true } else e

/-- Effect of `delete(h.clients, client); close(client.send)` on one entry. -/
def unregisterEntry (cid : Nat) (e : Entry) : Entry :=
  if e.cid == cid then { e with live := false, closed := true } else e

/-- Effect of the broadcast fan-out body on one entry: a non-blocking send
succeeds iff the buffered channel has a free slot; on the full default
branch the hub closes the channel and deletes the client. A client not in
the map is not visited by the range loop. -/
def deliverEntry (m : Msg) (e : Entry) : Entry :=
  if e.live then
    if e.buf.length < sendChanCapacity then { e with buf := e.buf ++ [m] }
    else { e with closed := true, live := false }
  else e

/-- The actions emitted by the broadcast fan-out body on one entry. -/
def deliverActs (m : Msg) (e : Entry) : List Act :=
  if e.live then
    if e.buf.length < sendChanCapacity then [.enqueue e.cid m]
    else [.closeChan e.cid, .removeClient e.cid]
  else []

/-- One iteration of the `Hub.run` select loop, with the trace of primitive
actions it performs.  Mirrors `main.go` lines 55-80:
* register: `h.clients[client] = true`;
* unregister: `if _, ok := h.clients[client]; ok { delete(...); close(...) }`;
* broadcast: for every client in the map, non-blocking send, with close
  and delete on the full default branch. -/
def hubStepT (s : HubState) (e : Event) : HubState × List Act :=
  match e with
  | .register cid =>
    if (entryFor s cid).isSome then
      (⟨s.entries.map (registerEntry cid)⟩, [.addClient cid])
    else
      (⟨s.entries ++ [⟨cid, [], false, true⟩]⟩, [.addClient cid])
  | .unregister cid =>
    if isLive s cid then
      (⟨s.entries.map (unregisterEntry cid)⟩, [.removeClient cid, .closeChan cid])
    else (s, [])
  | .broadcast m =>
    (⟨s.entries.map (deliverEntry m)⟩, (s.entries.map (deliverActs m)).flatten)

/-- The state part of one loop iteration. -/
def hubStep (s : HubState) (e : Event) : HubState := (hubStepT s e).1

/-- Running the coordinator loop over a sequence of events. -/
def hubRun (s : HubState) (evs : List Event) : HubState := evs.foldl hubStep s

/-- Running the coordinator loop, collecting the action trace. -/
def hubRunT : HubState → List Event → HubState × List Act
  | s, [] => (s, [])
  | s, e :: rest =>
    let p := hubStepT s e
    let q := hubRunT p.1 rest
    (q.1, p.2 ++ q.2)

/-- A found entry carries the client identity it was looked up by. -/
theorem entryFor_cid {s : HubState} {cid : Nat} {e : Entry}
    (h : entryFor s cid = some e) : e.cid = cid := by
  have h2 := List.find?_some h
  simpa using h2

theorem cid_registerEntry (cid : Nat) (e : Entry) :
    (registerEntry cid e).cid = e.cid := by
  unfold registerEntry
  split <;> rfl

theorem cid_unregisterEntry (cid : Nat) (e : Entry) :
    (unregisterEntry cid e).cid = e.cid := by
  unfold unregisterEntry
  split <;> rfl

theorem cid_deliverEntry (m : Msg) (e : Entry) :
    (deliverEntry m e).cid = e.cid := by
  unfold deliverEntry
  split <;> [skip; rfl]
  split <;> rfl

/-- Looking up after mapping a cid-preserving transform over the entries. -/
theorem find?_map_cidPres {f : Entry → Entry} (hf : ∀ e, (f e).cid = e.cid)
    (l : List Entry) (cid : Nat) :
    (l.map f).find? (fun e => e.cid == cid) =
      (l.find? (fun e => e.cid == cid)).map f := by
  rw [List.find?_map]
  have hp : ((fun e : Entry => e.cid == cid) ∘ f) = (fun e : Entry => e.cid == cid) := by
    funext e
    simp [Function.comp, hf]
  rw [hp]

theorem entryFor_broadcast (s : HubState) (m : Msg) (cid : Nat) :
    entryFor (hubStep s (.broadcast m)) cid = (entryFor s cid).map (deliverEntry m) := by
  show entryFor ⟨s.entries.map (deliverEntry m)⟩ cid = _
  unfold entryFor
  exact find?_map_cidPres (cid_deliverEntry m) s.entries cid

theorem entryFor_unregister (s : HubState) (c cid : Nat) :
    entryFor (hubStep s (.unregister c)) cid =
      if isLive s c then (entryFor s cid).map (unregisterEntry c) else entryFor s cid := by
  by_cases h : isLive s c
  · rw [if_pos h]
    have hs : hubStep s (.unregister c) = ⟨s.entries.map (unregisterEntry c)⟩ := by
      simp [hubStep, hubStepT, h]
    rw [hs]
    unfold entryFor
    exact find?_map_cidPres (cid_unregisterEntry c) s.entries cid
  · rw [if_neg h]
    have hs : hubStep s (.unregister c) = s := by
      simp [hubStep, hubStepT, h]
    rw [hs]

theorem entryFor_register (s : HubState) (c cid : Nat) :
    entryFor (hubStep s (.register c)) cid =
      if (entryFor s c).isSome then (entryFor s cid).map (registerEntry c)
      else if c = cid then some ⟨c, [], false, true⟩
      else entryFor s cid := by
  by_cases h : (entryFor s c).isSome
  · rw [if_pos h]
    have hs : hubStep s (.register c) = ⟨s.entries.map (registerEntry c)⟩ := by
      simp [hubStep, hubStepT, h]
    rw [hs]
    unfold entryFor
    exact find?_map_cidPres (cid_registerEntry c) s.entries cid
  · rw [if_neg h]
    have hs : hubStep s (.register c) = ⟨s.entries ++ [⟨c, [], false, true⟩]⟩ := by
      simp [hubStep, hubStepT, h]
    rw [hs]
    show List.find? _ (s.entries ++ [⟨c, [], false, true⟩]) = _
    rw [List.find?_append]
    by_cases hc : c = cid
    · subst hc
      rw [if_pos rfl]
      have hnone : entryFor s c = none := by
        cases hfind : entryFor s c with
        | none => rfl
        | some e => rw [hfind] at h; simp at h
      unfold entryFor at hnone
      rw [hnone]
      simp [List.find?]
    · rw [if_neg hc]
      have hsingle : List.find? (fun e : Entry => e.cid == cid) [⟨c, [], false, true⟩] = none := by
        have hbeq : (c == cid) = false := by
          exact beq_false_of_ne hc
        simp [List.find?, hbeq]
      rw [hsingle, Option.or_none]
      rfl

/-- A register event makes its client live and touches no other membership. -/
theorem isLive_register (s : HubState) (c cid : Nat) :
    isLive (hubStep s (.register c)) cid = ((c == cid) || isLive s cid) := by
  unfold isLive
  rw [entryFor_register]
  by_cases h : (entryFor s c).isSome
  · rw [if_pos h]
    cases hf : entryFor s cid with
    | none =>
      have hcc : (c == cid) = false := by
        apply beq_false_of_ne
        intro hq
        subst hq
        rw [hf] at h
        simp at h
      simp [hcc]
    | some en =>
      have hcid := entryFor_cid hf
      by_cases hcc : c = cid
      · subst hcc
        simp [registerEntry, hcid]
      · have h1 : (c == cid) = false := beq_false_of_ne hcc
        have h2 : (en.cid == c) = false := by
          apply beq_false_of_ne
          rw [hcid]
          intro hq
          exact hcc hq.symm
        simp [registerEntry, h1, h2]
  · rw [if_neg h]
    by_cases hcc : c = cid
    · subst hcc
      rw [if_pos rfl]
      have hnone : entryFor s c = none := Option.not_isSome_iff_eq_none.mp h
      simp [hnone]
    · rw [if_neg hcc]
      have h1 : (c == cid) = false := beq_false_of_ne hcc
      simp [h1]

/-- An unregister event removes exactly its client from the live set. -/
theorem isLive_unregister (s : HubState) (c cid : Nat) :
    isLive (hubStep s (.unregister c)) cid = (!(c == cid) && isLive s cid) := by
  unfold isLive
  rw [entryFor_unregister]
  by_cases h : isLive s c
  · rw [if_pos h]
    cases hf : entryFor s cid with
    | none => simp
    | some en =>
      have hcid := entryFor_cid hf
      by_cases hcc : c = cid
      · subst hcc
        simp [unregisterEntry, hcid]
      · have h1 : (c == cid) = false := beq_false_of_ne hcc
        have h2 : (en.cid == c) = false := by
          apply beq_false_of_ne
          rw [hcid]
          intro hq
          exact hcc hq.symm
        simp [unregisterEntry, h1, h2]
  · rw [if_neg h]
    by_cases hcc : c = cid
    · subst hcc
      have h0 : isLive s c = false := Bool.not_eq_true _ ▸ eq_false_of_ne_true h
      unfold isLive at h0
      simp [h0]
    · have h1 : (c == cid) = false := beq_false_of_ne hcc
      simp [h1]

/-- A broadcast keeps exactly those clients live whose queue has a free slot. -/
theorem isLive_broadcast (s : HubState) (m : Msg) (cid : Nat) :
    isLive (hubStep s (.broadcast m)) cid =
      (isLive s cid && decide (bufLen s cid < sendChanCapacity)) := by
  unfold isLive
  rw [entryFor_broadcast]
  cases hf : entryFor s cid with
  | none => simp
  | some en =>
    by_cases hl : en.live = true
    · by_cases hsp : en.buf.length < sendChanCapacity
      · simp [deliverEntry, hl, hsp, bufLen, getBuf, hf]
      · simp [deliverEntry, hl, hsp, bufLen, getBuf, hf]
    · have hl0 : en.live = false := eq_false_of_ne_true hl
      simp [deliverEntry, hl0, bufLen, getBuf, hf]

/-- A broadcast appends the message to the queue of a live client with a free
slot, the non-blocking send of line 71. -/
theorem getBuf_broadcast_space (s : HubState) (m : Msg) (cid : Nat)
    (hl : isLive s cid = true) (hsp : bufLen s cid < sendChanCapacity) :
    getBuf (hubStep s (.broadcast m)) cid = (getBuf s cid).map (fun b => b ++ [m]) := by
  unfold getBuf
  rw [entryFor_broadcast]
  cases hf : entryFor s cid with
  | none =>
    unfold isLive at hl
    rw [hf] at hl
    cases hl
  | some en =>
    have hlive : en.live = true := by
      unfold isLive at hl
      rw [hf] at hl
      exact hl
    have hlen : en.buf.length < sendChanCapacity := by
      unfold bufLen getBuf at hsp
      rw [hf] at hsp
      exact hsp
    simp [deliverEntry, hlive, hlen]

/-- A broadcast closes the queue of a live client whose queue is full, the
default branch of lines 72-76. -/
theorem isClosedB_broadcast_full (s : HubState) (m : Msg) (cid : Nat)
    (hl : isLive s cid = true) (hfull : sendChanCapacity ≤ bufLen s cid) :
    isClosedB (hubStep s (.broadcast m)) cid = true := by
  unfold isClosedB
  rw [entryFor_broadcast]
  cases hf : entryFor s cid with
  | none =>
    unfold isLive at hl
    rw [hf] at hl
    cases hl
  | some en =>
    have hlive : en.live = true := by
      unfold isLive at hl
      rw [hf] at hl
      exact hl
    have hlen : ¬en.buf.length < sendChanCapacity := by
      unfold bufLen getBuf at hfull
      rw [hf] at hfull
      have hfull2 : sendChanCapacity ≤ en.buf.length := hfull
      omega
    simp [deliverEntry, hlive, hlen]

/-- Spec-side notion, following the words of the specification: an event is
a registration of the given client. -/
def addedAt (e : Event) (cid : Nat) : Bool :=
  match e with
  | .register c => c == cid
  | _ => false

/-- Spec-side notion, following the words of the specification: in state `s`
the event is an unregistration of the given client, or a broadcast that
evicts it for backpressure (its queue is full). -/
def removedAt (s : HubState) (e : Event) (cid : Nat) : Bool :=
  match e with
  | .register _ => false
  | .unregister c => c == cid
  | .broadcast _ => decide (sendChanCapacity ≤ bufLen s cid)

/-- Spec-side membership tracker: starting from membership `b`, a client is
a member after an event sequence iff the last membership-relevant event for
it was a registration and no unregistration or backpressure eviction has
been processed since. -/
def specLiveB (cid : Nat) : HubState → Bool → List Event → Bool
  | _, b, [] => b
  | s, b, e :: rest =>
    specLiveB cid (hubStep s e) (addedAt e cid || (b && !removedAt s e cid)) rest

/-- Single-step live-set characterization: after one coordinator event a
client is live iff the event registered it, or it was live and the event
neither unregistered nor evicted it. -/
theorem isLive_hubStep (s : HubState) (e : Event) (cid : Nat) :
    isLive (hubStep s e) cid
      = (addedAt e cid || (isLive s cid && !removedAt s e cid)) := by
  cases e with
  | register c =>
    simp [addedAt, removedAt, isLive_register]
  | unregister c =>
    simp [addedAt, removedAt, isLive_unregister, Bool.and_comm]
  | broadcast m =>
    have hd : decide (bufLen s cid < sendChanCapacity)
        = !decide (sendChanCapacity ≤ bufLen s cid) := by
      by_cases h : sendChanCapacity ≤ bufLen s cid
      · simp [h, Nat.not_lt_of_le h]
      · simp [h, Nat.lt_of_not_le h]
    simp [addedAt, removedAt, isLive_broadcast, hd]

/-- Claim C1: when the coordinator processes broadcast messages, each one is
enqueued onto the outbound queue of every connection in the live set --- the
fan-out loop of lines 69-77 treats all registered clients uniformly, so the
sender (being registered) receives its own message --- and a connection that
survives a sequence of broadcasts has exactly those messages appended to its
queue in the order the coordinator dequeued them (FIFO relative to other
broadcasts).  A connection that does not survive was evicted for
backpressure, which is the subject of claim C2. -/
theorem hub_broadcast_fanout_fifo (msgs : List Msg) (s : HubState) (cid : Nat)
    (h : isLive (hubRun s (msgs.map Event.broadcast)) cid = true) :
    isLive s cid = true ∧
      getBuf (hubRun s (msgs.map Event.broadcast)) cid
        = (getBuf s cid).map (fun b => b ++ msgs) := by
  induction msgs generalizing s with
  | nil =>
    refine ⟨h, ?_⟩
    cases hf : getBuf s cid <;> simp [hubRun, hf]
  | cons m rest ih =>
    have hrun : hubRun s ((m :: rest).map Event.broadcast)
        = hubRun (hubStep s (.broadcast m)) (rest.map Event.broadcast) := rfl
    rw [hrun] at h
    obtain ⟨hs1, hbuf⟩ := ih (hubStep s (.broadcast m)) h
    rw [isLive_broadcast] at hs1
    rw [Bool.and_eq_true] at hs1
    obtain ⟨hlive, hspace⟩ := hs1
    have hb1 := getBuf_broadcast_space s m cid hlive (of_decide_eq_true hspace)
    refine ⟨hlive, ?_⟩
    rw [hrun, hbuf, hb1, Option.map_map]
    congr 1
    funext b
    simp

/-- Concrete instance of claim C1: two clients register, client 1 broadcasts
two messages, both survive and client 1 (the sender) has both messages in
order in its own queue. -/
theorem hub_broadcast_fanout_fifo_witness :
    isLive (hubRun (hubRun hubInit [.register 1, .register 2])
        ([[7], [8]].map Event.broadcast)) 1 = true ∧
      (isLive (hubRun hubInit [.register 1, .register 2]) 1 = true ∧
        getBuf (hubRun (hubRun hubInit [.register 1, .register 2])
            ([[7], [8]].map Event.broadcast)) 1
          = (getBuf (hubRun hubInit [.register 1, .register 2]) 1).map
              (fun b => b ++ [[7], [8]])) :=
  ⟨by decide, hub_broadcast_fanout_fifo [[7], [8]]
    (hubRun hubInit [.register 1, .register 2]) 1 (by decide)⟩

/-- Claim C2: when a broadcast reaches a live connection whose outbound
queue is full (capacity 256, the default branch of the non-blocking send in
lines 72-76), the coordinator closes that queue and removes the connection
from the live set in that same broadcast step; the step is a total function
(never blocks), and every other live connection with a free slot still gets
the message appended to its queue. -/
theorem hub_backpressure_eviction (s : HubState) (m : Msg) (cid : Nat)
    (hl : isLive s cid = true) (hfull : sendChanCapacity ≤ bufLen s cid) :
    isLive (hubStep s (.broadcast m)) cid = false ∧
    isClosedB (hubStep s (.broadcast m)) cid = true ∧
    ∀ c2 : Nat, isLive s c2 = true → bufLen s c2 < sendChanCapacity →
      isLive (hubStep s (.broadcast m)) c2 = true ∧
      getBuf (hubStep s (.broadcast m)) c2 = (getBuf s c2).map (fun b => b ++ [m]) := by
  refine ⟨?_, isClosedB_broadcast_full s m cid hl hfull, ?_⟩
  · rw [isLive_broadcast]
    simp [Nat.not_lt_of_le hfull]
  · intro c2 h2 hsp
    refine ⟨?_, getBuf_broadcast_space s m c2 h2 hsp⟩
    rw [isLive_broadcast]
    simp [h2, hsp]

/-- A two-client state in which client 1 has a saturated outbound queue
(256 buffered messages, none drained) and client 2 an empty one. -/
def fullQueueState : HubState :=
  ⟨[⟨1, List.replicate sendChanCapacity [0], false, true⟩, ⟨2, [], false, true⟩]⟩

set_option maxRecDepth 4000 in
/-- Concrete instance of claim C2: broadcasting to `fullQueueState` evicts
client 1, closes its queue, and still delivers the message to client 2. -/
theorem hub_backpressure_eviction_witness :
    (isLive fullQueueState 1 = true ∧ sendChanCapacity ≤ bufLen fullQueueState 1) ∧
      isLive (hubStep fullQueueState (.broadcast [5])) 1 = false ∧
      isClosedB (hubStep fullQueueState (.broadcast [5])) 1 = true ∧
      isLive (hubStep fullQueueState (.broadcast [5])) 2 = true ∧
      getBuf (hubStep fullQueueState (.broadcast [5])) 2 = some [[5]] :=
  ⟨⟨by decide, by decide⟩,
    (hub_backpressure_eviction fullQueueState [5] 1 (by decide) (by decide)).1,
    (hub_backpressure_eviction fullQueueState [5] 1 (by decide) (by decide)).2.1,
    ((hub_backpressure_eviction fullQueueState [5] 1 (by decide) (by decide)).2.2
      2 (by decide) (by decide)).1,
    by
      have h := ((hub_backpressure_eviction fullQueueState [5] 1 (by decide) (by decide)).2.2
        2 (by decide) (by decide)).2
      rw [h]
      decide⟩

/-- Claim C4: in every reachable coordinator state, under any sequence of
register, unregister and broadcast events, a connection is in the live set
iff a register for it has been processed and no later unregister or
backpressure eviction for it has been processed.  `specLiveB` is the
spec-side membership tracker built only from the event classification
(`addedAt` and `removedAt`); the theorem says the live set of the code
(`isLive` after `hubRun`) refines it exactly, from any starting state.  The
single-mutator part of the claim is structural in the embedding: `hubStep`
is the only function that produces a new `HubState`, mirroring that only
the `Hub.run` loop touches `h.clients`. -/
theorem hub_live_membership_characterization (evs : List Event) (s : HubState)
    (cid : Nat) :
    isLive (hubRun s evs) cid = specLiveB cid s (isLive s cid) evs := by
  induction evs generalizing s with
  | nil => rfl
  | cons e rest ih =>
    have hrun : hubRun s (e :: rest) = hubRun (hubStep s e) rest := rfl
    rw [hrun, ih (hubStep s e)]
    show specLiveB cid (hubStep s e) (isLive (hubStep s e) cid) rest
      = specLiveB cid (hubStep s e) (addedAt e cid || (isLive s cid && !removedAt s e cid)) rest
    rw [isLive_hubStep]

theorem map_eq_self_of {l : List Entry} {f : Entry → Entry}
    (h : ∀ e ∈ l, f e = e) : l.map f = l := by
  induction l with
  | nil => rfl
  | cons e rest ih =>
    have he : f e = e := h e (by simp)
    have hrest : rest.map f = rest := ih (fun x hx => h x (by simp [hx]))
    simp [he, hrest]

/-- Claim C9: processing a register request for a client already present in
the live set leaves the coordinator state unchanged.  Line 59 is a Go map
assignment `h.clients[client] = true`: for a key already present with value
true it is the identity, and it never touches the client queue. -/
theorem hub_register_idempotent (s : HubState) (cid : Nat)
    (hnodup : (s.entries.map Entry.cid).Nodup) (hl : isLive s cid = true) :
    hubStep s (.register cid) = s := by
  have hsome : (entryFor s cid).isSome := by
    unfold isLive at hl
    cases hf : entryFor s cid with
    | none => rw [hf] at hl; cases hl
    | some e => simp [hf]
  have hs : hubStep s (.register cid) = ⟨s.entries.map (registerEntry cid)⟩ := by
    simp [hubStep, hubStepT, hsome]
  rw [hs]
  have hmap : s.entries.map (registerEntry cid) = s.entries := by
    apply map_eq_self_of
    intro e he
    unfold registerEntry
    by_cases hc : (e.cid == cid) = true
    · rw [if_pos hc]
      cases hf : entryFor s cid with
      | none =>
        unfold isLive at hl
        rw [hf] at hl
        cases hl
      | some e0 =>
        have he0 : e0 ∈ s.entries := List.mem_of_find?_eq_some hf
        have he0cid : e0.cid = cid := entryFor_cid hf
        have hecid : e.cid = cid := by simpa using hc
        have heq : e = e0 :=
          List.inj_on_of_nodup_map hnodup he he0 (by rw [hecid, he0cid])
        have hlive : e.live = true := by
          unfold isLive at hl
          rw [hf] at hl
          rw [heq]
          exact hl
        obtain ⟨c1, b1, cl1, lv1⟩ := e
        cases lv1
        · simp at hlive
        · rfl
    · rw [if_neg hc]
  rw [hmap]

/-- Concrete instance of claim C9: re-registering the already-registered
client 3 leaves the hub state unchanged. -/
theorem hub_register_idempotent_witness :
    ((hubRun hubInit [.register 3]).entries.map Entry.cid).Nodup ∧
      isLive (hubRun hubInit [.register 3]) 3 = true ∧
      hubStep (hubRun hubInit [.register 3]) (.register 3)
        = hubRun hubInit [.register 3] :=
  ⟨by decide, by decide,
    hub_register_idempotent (hubRun hubInit [.register 3]) 3 (by decide) (by decide)⟩

/-!  The Reader (`Client.readPump`, lines 83-107).  The connection delivers
a sequence of read results; `ReadMessage` either yields a frame payload or
fails (read deadline expiry, protocol error, peer close --- and, via
`SetReadLimit(512)`, a frame whose payload exceeds the limit surfaces as a
read error).  The pump forwards each successful payload to `hub.broadcast`,
breaks on the first error, and then runs its deferred block: one send to
`hub.unregister` and one `conn.Close()`. -/

/-- The failure classes a blocking read can surface. -/
inductive ReadErrKind where
  | timeout
  | protocolError
  | peerClosed
deriving Repr, DecidableEq

/-- One result of the underlying connection read: a data frame, or an
I/O-level failure. -/
inductive ConnRead where
  | frame (m : Msg)
  | fail (k : ReadErrKind)
deriving Repr, DecidableEq

/-- `c.conn.ReadMessage()` as observed by the pump under
`SetReadLimit(512)`: a frame larger than the limit is a read error, as is
any I/O failure. -/
def readMessage (r : ConnRead) : Option Msg :=
  match r with
  | .frame m => if m.length ≤ readLimitBytes then some m else none
  | .fail _ => none

/-- Observable outcome of the Reader: the payloads it forwarded to
`hub.broadcast` in order, how many unregister requests it sent for its own
entry, and whether it closed its own connection handle.  The Reader touches
no other state (it never writes to the connection and never references any
other client), so these fields are its whole effect. -/
structure ReadPumpResult where
  broadcasts : List Msg
  unregisterSignals : Nat
  connClosed : Bool
deriving Repr, DecidableEq

/-- The `for` loop of `readPump`: forward payloads until the first read
error; report whether the loop terminated.  An input list exhausted without
an error corresponds to a Reader still blocked in `ReadMessage`. -/
def readPumpLoop : List ConnRead → List Msg × Bool
  | [] => ([], false)
  | r :: rest =>
    match readMessage r with
    | none => ([], true)
    | some m =>
      let p := readPumpLoop rest
      (m :: p.1, p.2)

/-- `readPump`: the loop plus the deferred unregister and connection close,
which run exactly when the loop breaks. -/
def readPump (reads : List ConnRead) : ReadPumpResult :=
  let p := readPumpLoop reads
  ⟨p.1, if p.2 then 1 else 0, p.2⟩

/-- Claim C5: on any read failure --- an I/O error (timeout, protocol
error, peer close) or an oversized inbound frame, which the 512-byte read
limit turns into a read error --- the Reader stops its loop, sends exactly
one unregister request for its own entry, and closes the connection handle,
having forwarded exactly the payloads read before the failure.  No other
connection appears in the Reader at all, so no other connection state is
touched.  The oversize conjunct records that exceeding the limit is such a
failure. -/
theorem readPump_error_unregisters_once (pre post : List ConnRead) (r : ConnRead)
    (hpre : ∀ x ∈ pre, (readMessage x).isSome = true)
    (herr : readMessage r = none) :
    readPump (pre ++ r :: post) = ⟨pre.filterMap readMessage, 1, true⟩ ∧
      ∀ m : Msg, readLimitBytes < m.length → readMessage (.frame m) = none := by
  constructor
  · have hloop : readPumpLoop (pre ++ r :: post) = (pre.filterMap readMessage, true) := by
      induction pre with
      | nil =>
        simp [readPumpLoop, herr]
      | cons x xs ih =>
        have hx : (readMessage x).isSome = true := hpre x (by simp)
        cases hm : readMessage x with
        | none => rw [hm] at hx; cases hx
        | some m =>
          have ihx := ih (fun y hy => hpre y (by simp [hy]))
          simp [readPumpLoop, hm, ihx]
    unfold readPump
    rw [hloop]
    rfl
  · intro m hm
    show (if m.length ≤ readLimitBytes then some m else none) = none
    rw [if_neg (by omega)]

/-- Concrete instance of claim C5: two frames are forwarded, then a
protocol error stops the Reader, which unregisters once and closes the
handle; an oversized 513-byte frame is also a read error. -/
theorem readPump_error_unregisters_once_witness :
    (∀ x ∈ [ConnRead.frame [1], ConnRead.frame [2]], (readMessage x).isSome = true) ∧
      readMessage (.fail .protocolError) = none ∧
      readPump ([ConnRead.frame [1], ConnRead.frame [2]]
          ++ ConnRead.fail .protocolError :: [ConnRead.frame [3]])
        = ⟨[[1], [2]], 1, true⟩ ∧
      readMessage (.frame (List.replicate 513 0)) = none :=
  ⟨by decide, by decide,
    by
      have h := readPump_error_unregisters_once
        [ConnRead.frame [1], ConnRead.frame [2]] [ConnRead.frame [3]]
        (.fail .protocolError) (by decide) (by decide)
      rw [h.1]
      decide,
    by
      have h := readPump_error_unregisters_once ([] : List ConnRead) []
        (.fail .protocolError) (by decide) (by decide)
      exact h.2 (List.replicate 513 0) (by rw [List.length_replicate]; decide)⟩

/-!  The Writer (`Client.writePump`, lines 110-151).  The pump selects
between a receive on the send channel and a heartbeat ticker tick.  A Go
buffered channel delivers buffered values (with ok = true) even after it
has been closed, and reports ok = false only once it is both closed and
drained; an empty open channel blocks, so that select arm cannot fire.  The
model threads the channel snapshot through the state (the coordinator is
not running concurrently in a per-connection statement, so the snapshot
taken at `n := len(c.send)` is the whole remaining buffer, exactly the
messages buffered at that instant).  Connection write success or failure is
an input of each step. -/

/-- The byte the batch loop writes between coalesced messages, the newline
byte 10 from the Go string literal backslash-n at line 136. -/
def newlineByte : Nat := 10

/-- A send channel as the Writer sees it: buffered contents plus closed
flag. -/
structure Chan where
  buf : List Msg
  closed : Bool
deriving Repr, DecidableEq

/-- Writer state: its channel snapshot, the payload bytes written to the
connection in order, the count of liveness probes sent, the write deadlines
set (in seconds, one entry per `SetWriteDeadline` call), whether the
graceful close notification was written, whether the deferred
`conn.Close()` ran, how many unregister requests the Writer has sent (the
source contains no such send, so no step changes it), and whether the loop
is still running. -/
structure WState where
  chan : Chan
  out : List Nat
  pings : Nat
  deadlines : List Nat
  closeNotified : Bool
  connClosed : Bool
  unregisterSignals : Nat
  running : Bool
deriving Repr, DecidableEq

/-- The two select arms of `writePump`: a receive on `c.send` (with the
success of the subsequent connection write as an input), or a ticker tick
(with the success of the ping write as an input). -/
inductive WEvent where
  | chanRecv (writeOk : Bool)
  | tick (writeOk : Bool)
deriving Repr, DecidableEq

/-- The bytes one message-write iteration produces: the received message,
then each message still buffered at that instant, each preceded by the
newline delimiter (lines 127-138). -/
def batchBytes (m : Msg) (buffered : List Msg) : List Nat :=
  m ++ (buffered.map (fun x => newlineByte :: x)).flatten

/-- One iteration of the `writePump` select loop. -/
def wStep (s : WState) (e : WEvent) : WState :=
  if !s.running then s else
  match e with
  | .chanRecv writeOk =>
    match s.chan.buf with
    | [] =>
      if s.chan.closed then
        -- receive returned ok = false: write the close message and return
        { s with deadlines := s.deadlines ++ [writeDeadlineSeconds],
                 closeNotified := true, running := false, connClosed := true }
      else s  -- empty open channel: the receive blocks, this arm cannot fire
    | m :: rest =>
      if writeOk then
        { s with deadlines := s.deadlines ++ [writeDeadlineSeconds],
                 chan := ⟨[], s.chan.closed⟩,
                 out := s.out ++ batchBytes m rest }
      else
        -- NextWriter or Close failed: return, running the deferred close
        { s with deadlines := s.deadlines ++ [writeDeadlineSeconds],
                 chan := ⟨rest, s.chan.closed⟩,
                 running := false, connClosed := true }
  | .tick writeOk =>
    if writeOk then
      { s with deadlines := s.deadlines ++ [writeDeadlineSeconds],
               pings := s.pings + 1 }
    else
      { s with deadlines := s.deadlines ++ [writeDeadlineSeconds],
               running := false, connClosed := true }

/-- Running the Writer loop over a sequence of select outcomes. -/
def wRun (s : WState) (evs : List WEvent) : WState := evs.foldl wStep s

/-- An initial Writer state for a fresh connection with channel contents
`c`. -/
def wInit (c : Chan) : WState := ⟨c, [], 0, [], false, false, 0, true⟩

/-- The coalesced batch is exactly the received message and the buffered
messages in FIFO order, separated by single newline bytes. -/
theorem batchBytes_eq_intercalate (m : Msg) (rest : List Msg) :
    batchBytes m rest = List.intercalate [newlineByte] (m :: rest) := by
  induction rest generalizing m with
  | nil => simp [batchBytes, List.intercalate]
  | cons r t ih =>
    have hstep : List.intercalate [newlineByte] (m :: r :: t)
        = m ++ [newlineByte] ++ List.intercalate [newlineByte] (r :: t) := by
      simp [List.intercalate, List.intersperse]
    rw [hstep, ← ih r]
    simp [batchBytes]

/-- Claim C6: when the Writer wakes on an available message it writes that
message and coalesces exactly the messages buffered in the queue at that
instant into the same write batch, each preceded by a newline delimiter, in
queue (FIFO) order; the bytes appended to the connection are the queued
messages in the order the coordinator enqueued them, newline-separated. -/
theorem writePump_batch_coalesce_fifo (s : WState) (m : Msg) (rest : List Msg)
    (hrun : s.running = true) (hbuf : s.chan.buf = m :: rest) :
    (wStep s (.chanRecv true)).out
        = s.out ++ List.intercalate [newlineByte] (m :: rest) ∧
      (wStep s (.chanRecv true)).chan.buf = [] ∧
      (wStep s (.chanRecv true)).running = true := by
  have hs : wStep s (.chanRecv true)
      = { s with deadlines := s.deadlines ++ [writeDeadlineSeconds],
                 chan := ⟨[], s.chan.closed⟩,
                 out := s.out ++ batchBytes m rest } := by
    simp [wStep, hrun, hbuf]
  rw [hs]
  exact ⟨by simp [batchBytes_eq_intercalate], rfl, hrun ▸ rfl⟩

/-- Concrete instance of claim C6: a Writer holding three queued messages
writes them as one newline-separated batch and empties its queue. -/
theorem writePump_batch_coalesce_fifo_witness :
    (wInit ⟨[[1], [2], [3]], false⟩).running = true ∧
      (wInit ⟨[[1], [2], [3]], false⟩).chan.buf = [[1]] ++ [[2], [3]] ∧
      (wStep (wInit ⟨[[1], [2], [3]], false⟩) (.chanRecv true)).out
          = (wInit ⟨[[1], [2], [3]], false⟩).out
            ++ List.intercalate [newlineByte] ([1] :: [[2], [3]]) ∧
      (wStep (wInit ⟨[[1], [2], [3]], false⟩) (.chanRecv true)).chan.buf = [] ∧
      (wStep (wInit ⟨[[1], [2], [3]], false⟩) (.chanRecv true)).running = true :=
  ⟨by decide, by decide,
    (writePump_batch_coalesce_fifo (wInit ⟨[[1], [2], [3]], false⟩) [1] [[2], [3]]
      (by decide) (by decide)).1,
    (writePump_batch_coalesce_fifo (wInit ⟨[[1], [2], [3]], false⟩) [1] [[2], [3]]
      (by decide) (by decide)).2.1,
    (writePump_batch_coalesce_fifo (wInit ⟨[[1], [2], [3]], false⟩) [1] [[2], [3]]
      (by decide) (by decide)).2.2⟩

/-- The bytes a Writer drains from a closed channel: nothing if it was
empty, otherwise one batch carrying every buffered message. -/
def drainBytes : List Msg → List Nat
  | [] => []
  | m :: rest => batchBytes m rest

/-- Claim C10: when the coordinator closes a queue that still holds
buffered messages, the Writer first writes every message buffered at
closure time, in FIFO order (Go buffered channels deliver buffered values
before reporting closure), and only once the queue is empty observes
ok = false, sends the graceful close notification, and terminates; closure
itself discards no buffered message. -/
theorem writePump_drains_closed_queue (s : WState) (msgs : List Msg)
    (hrun : s.running = true) (hchan : s.chan = ⟨msgs, true⟩) :
    (wRun s [.chanRecv true, .chanRecv true]).out = s.out ++ drainBytes msgs ∧
      (wRun s [.chanRecv true, .chanRecv true]).closeNotified = true ∧
      (wRun s [.chanRecv true, .chanRecv true]).running = false ∧
      (wRun s [.chanRecv true, .chanRecv true]).chan.buf = [] := by
  cases msgs with
  | nil =>
    have hs : wStep s (.chanRecv true)
        = { s with deadlines := s.deadlines ++ [writeDeadlineSeconds],
                   closeNotified := true, running := false, connClosed := true } := by
      simp [wStep, hrun, hchan]
    have hstop : wStep (wStep s (.chanRecv true)) (.chanRecv true)
        = wStep s (.chanRecv true) := by
      rw [hs]
      simp [wStep]
    have hrr : wRun s [.chanRecv true, .chanRecv true]
        = wStep (wStep s (.chanRecv true)) (.chanRecv true) := rfl
    rw [hrr, hstop, hs]
    exact ⟨by simp [drainBytes], rfl, rfl, by simp [hchan]⟩
  | cons m rest =>
    have hs1 : wStep s (.chanRecv true)
        = { s with deadlines := s.deadlines ++ [writeDeadlineSeconds],
                   chan := ⟨[], true⟩,
                   out := s.out ++ batchBytes m rest } := by
      simp [wStep, hrun, hchan]
    have hs2 : wStep (wStep s (.chanRecv true)) (.chanRecv true)
        = { s with deadlines := (s.deadlines ++ [writeDeadlineSeconds])
                     ++ [writeDeadlineSeconds],
                   chan := ⟨[], true⟩,
                   out := s.out ++ batchBytes m rest,
                   closeNotified := true, running := false, connClosed := true } := by
      rw [hs1]
      simp [wStep, hrun]
    have hrr : wRun s [.chanRecv true, .chanRecv true]
        = wStep (wStep s (.chanRecv true)) (.chanRecv true) := rfl
    rw [hrr, hs2]
    exact ⟨by simp [drainBytes], rfl, rfl, rfl⟩

/-- Concrete instance of claim C10: a closed channel still holding two
messages is fully drained into one batch before the close notification. -/
theorem writePump_drains_closed_queue_witness :
    (wInit ⟨[[4], [5]], true⟩).running = true ∧
      (wInit ⟨[[4], [5]], true⟩).chan = ⟨[[4], [5]], true⟩ ∧
      (wRun (wInit ⟨[[4], [5]], true⟩) [.chanRecv true, .chanRecv true]).out
          = (wInit ⟨[[4], [5]], true⟩).out ++ drainBytes [[4], [5]] ∧
      (wRun (wInit ⟨[[4], [5]], true⟩) [.chanRecv true, .chanRecv true]).closeNotified
          = true ∧
      (wRun (wInit ⟨[[4], [5]], true⟩) [.chanRecv true, .chanRecv true]).running
          = false :=
  ⟨by decide, by decide,
    (writePump_drains_closed_queue (wInit ⟨[[4], [5]], true⟩) [[4], [5]]
      (by decide) (by decide)).1,
    (writePump_drains_closed_queue (wInit ⟨[[4], [5]], true⟩) [[4], [5]]
      (by decide) (by decide)).2.1,
    (writePump_drains_closed_queue (wInit ⟨[[4], [5]], true⟩) [[4], [5]]
      (by decide) (by decide)).2.2.1⟩

/-- The connection clock state the Reader maintains: the current time and
the read deadline, both in seconds. -/
structure ConnState where
  now : Nat
  readDeadline : Nat
deriving Repr, DecidableEq

/-- The pong handler installed by `readPump` (lines 91-94): on each probe
acknowledgement it refreshes the read deadline to now + 60 seconds. -/
def pongHandler (c : ConnState) : ConnState :=
  { c with readDeadline := c.now + readDeadlineSeconds }

/-- Claim C7: the heartbeat interval (54 seconds) is strictly shorter than
the 60-second read deadline the peer Reader enforces and refreshes on each
probe acknowledgement; on every ticker tick a running Writer sends one
liveness probe under the 10-second write deadline and keeps running, and a
probe write failure terminates the Writer (its deferred connection close
runs). -/
theorem heartbeat_shorter_than_read_deadline :
    pingIntervalSeconds < readDeadlineSeconds ∧
      (∀ c : ConnState, (pongHandler c).readDeadline = c.now + readDeadlineSeconds) ∧
      ∀ s : WState, s.running = true →
        (wStep s (.tick true)).pings = s.pings + 1 ∧
        (wStep s (.tick true)).deadlines = s.deadlines ++ [writeDeadlineSeconds] ∧
        (wStep s (.tick true)).running = true ∧
        (wStep s (.tick false)).running = false ∧
        (wStep s (.tick false)).connClosed = true := by
  refine ⟨by decide, fun c => rfl, fun s hrun => ?_⟩
  have h1 : wStep s (.tick true)
      = { s with deadlines := s.deadlines ++ [writeDeadlineSeconds],
                 pings := s.pings + 1 } := by
    simp [wStep, hrun]
  have h2 : wStep s (.tick false)
      = { s with deadlines := s.deadlines ++ [writeDeadlineSeconds],
                 running := false, connClosed := true } := by
    simp [wStep, hrun]
  rw [h1, h2]
  exact ⟨rfl, rfl, hrun, rfl, rfl⟩

/-- Concrete instance of claim C7 at a fresh Writer and a concrete clock. -/
theorem heartbeat_shorter_than_read_deadline_witness :
    pingIntervalSeconds < readDeadlineSeconds ∧
      (pongHandler ⟨100, 0⟩).readDeadline = 100 + readDeadlineSeconds ∧
      (wInit ⟨[], false⟩).running = true ∧
      (wStep (wInit ⟨[], false⟩) (.tick true)).pings = (wInit ⟨[], false⟩).pings + 1 ∧
      (wStep (wInit ⟨[], false⟩) (.tick false)).running = false :=
  ⟨(heartbeat_shorter_than_read_deadline).1,
    (heartbeat_shorter_than_read_deadline).2.1 ⟨100, 0⟩,
    by decide,
    ((heartbeat_shorter_than_read_deadline).2.2 (wInit ⟨[], false⟩) (by decide)).1,
    ((heartbeat_shorter_than_read_deadline).2.2 (wInit ⟨[], false⟩)
      (by decide)).2.2.2.1⟩

/-- Writer termination never unsets the connection-closed flag. -/
theorem wStep_connClosed_mono (s : WState) (e : WEvent)
    (h : s.connClosed = true) : (wStep s e).connClosed = true := by
  unfold wStep
  by_cases hr : s.running = true
  · rw [if_neg (by simp [hr])]
    cases e with
    | chanRecv w =>
      cases hb : s.chan.buf with
      | nil =>
        by_cases hc : s.chan.closed = true
        · simp [hb, hc]
        · simp [hb, hc, h]
      | cons m rest =>
        cases w <;> simp [hb, h]
    | tick w =>
      cases w <;> simp [h]
  · rw [if_pos (by simp [Bool.not_eq_true] at hr ⊢; exact hr)]
    exact h

/-- Writer termination never unsets the connection-closed flag, over a run. -/
theorem wRun_connClosed_mono (s : WState) (evs : List WEvent)
    (h : s.connClosed = true) : (wRun s evs).connClosed = true := by
  induction evs generalizing s with
  | nil => exact h
  | cons x xs ihx => exact ihx (wStep s x) (wStep_connClosed_mono s x h)

/-- Claim C8: whatever sequence of select outcomes a Writer processes ---
message writes, failed writes, probe failures, queue closure --- it never
sends an unregister request (the count is untouched; the source contains no
send to `hub.unregister` in `writePump`) and never closes its own send
channel (only the coordinator does); when it terminates, its only effect on
shared state is that its deferred `conn.Close()` ran.  The Writer model
references no hub state and no other connection at all, which embeds the
rest of the frame condition. -/
theorem writePump_frame_no_unregister (s : WState) (evs : List WEvent) :
    (wRun s evs).unregisterSignals = s.unregisterSignals ∧
      (wRun s evs).chan.closed = s.chan.closed ∧
      ((wRun s evs).running = false → s.running = false ∨
        (wRun s evs).connClosed = true) := by
  induction evs generalizing s with
  | nil => exact ⟨rfl, rfl, fun h => Or.inl h⟩
  | cons e rest ih =>
    have hrr : wRun s (e :: rest) = wRun (wStep s e) rest := rfl
    obtain ⟨ihu, ihc, ihr⟩ := ih (wStep s e)
    rw [hrr]
    have hstep : (wStep s e).unregisterSignals = s.unregisterSignals ∧
        (wStep s e).chan.closed = s.chan.closed ∧
        ((wStep s e).running = false → s.running = false ∨
          (wStep s e).connClosed = true) := by
      unfold wStep
      by_cases hr : s.running = true
      · rw [if_neg (by simp [hr])]
        cases e with
        | chanRecv w =>
          cases hb : s.chan.buf with
          | nil =>
            by_cases hc : s.chan.closed = true
            · simp [hb, hc]
            · simp [hb, hc, hr]
          | cons m rest2 =>
            cases w <;> simp [hb, hr]
        | tick w =>
          cases w <;> simp [hr]
      · rw [if_pos (by simp [Bool.not_eq_true] at hr ⊢; exact hr)]
        exact ⟨rfl, rfl, fun h => Or.inl h⟩
    refine ⟨by rw [ihu, hstep.1], by rw [ihc, hstep.2.1], fun hend => ?_⟩
    rcases ihr hend with h1 | h2
    · rcases hstep.2.2 h1 with h3 | h4
      · exact Or.inl h3
      · exact Or.inr (wRun_connClosed_mono (wStep s e) rest h4)
    · exact Or.inr h2

/-- Concrete instance of claim C8: a Writer that writes one message, then
hits a probe failure and terminates, has sent no unregister request, left
its channel open, and closed only its own connection handle. -/
theorem writePump_frame_no_unregister_witness :
    (wRun (wInit ⟨[[9]], false⟩) [.chanRecv true, .tick false]).unregisterSignals
        = (wInit ⟨[[9]], false⟩).unregisterSignals ∧
      (wRun (wInit ⟨[[9]], false⟩) [.chanRecv true, .tick false]).chan.closed
        = (wInit ⟨[[9]], false⟩).chan.closed ∧
      ((wRun (wInit ⟨[[9]], false⟩) [.chanRecv true, .tick false]).running = false →
        (wInit ⟨[[9]], false⟩).running = false ∨
          (wRun (wInit ⟨[[9]], false⟩) [.chanRecv true, .tick false]).connClosed = true) :=
  writePump_frame_no_unregister (wInit ⟨[[9]], false⟩) [.chanRecv true, .tick false]

/-!  Machinery for claim C3: the per-channel discipline of the coordinator
trace.  `chanScan` walks the action trace for one client carrying the
closed flag of its channel: it rejects (returns `none`) a second close of
an already-closed channel (a `close` panic in Go) and any enqueue onto a
closed channel (a send panic in Go); otherwise it returns the final flag. -/

/-- The client a primitive action concerns. -/
def actCid : Act → Nat
  | .addClient c => c
  | .removeClient c => c
  | .closeChan c => c
  | .enqueue c _ => c

/-- Scan a trace for one client: `none` means the trace closes its channel
twice or enqueues onto it after closing; otherwise `some` of the final
closed flag. -/
def chanScan (cid : Nat) : Bool → List Act → Option Bool
  | b, [] => some b
  | b, .closeChan c :: rest =>
    if c == cid then (if b then none else chanScan cid true rest)
    else chanScan cid b rest
  | b, .enqueue c _ :: rest =>
    if c == cid then (if b then none else chanScan cid b rest)
    else chanScan cid b rest
  | b, .addClient _ :: rest => chanScan cid b rest
  | b, .removeClient _ :: rest => chanScan cid b rest

theorem chanScan_append (cid : Nat) (b : Bool) (l1 l2 : List Act) :
    chanScan cid b (l1 ++ l2)
      = (chanScan cid b l1).bind (fun b2 => chanScan cid b2 l2) := by
  induction l1 generalizing b with
  | nil => rfl
  | cons a rest ih =>
    cases a with
    | closeChan c =>
      by_cases hc : (c == cid) = true
      · cases b <;> simp [chanScan, hc, ih]
      · simp [chanScan, hc, ih]
    | enqueue c m =>
      by_cases hc : (c == cid) = true
      · cases b <;> simp [chanScan, hc, ih]
      · simp [chanScan, hc, ih]
    | addClient c => simp [chanScan, ih]
    | removeClient c => simp [chanScan, ih]

theorem chanScan_skip (cid : Nat) (b : Bool) (l : List Act)
    (h : ∀ a ∈ l, actCid a ≠ cid) : chanScan cid b l = some b := by
  induction l with
  | nil => rfl
  | cons a rest ih =>
    have ha : actCid a ≠ cid := h a (by simp)
    have hr : ∀ x ∈ rest, actCid x ≠ cid := fun x hx => h x (by simp [hx])
    cases a with
    | closeChan c =>
      have hc : (c == cid) = false := beq_false_of_ne ha
      simp [chanScan, hc, ih hr]
    | enqueue c m =>
      have hc : (c == cid) = false := beq_false_of_ne ha
      simp [chanScan, hc, ih hr]
    | addClient c => simp [chanScan, ih hr]
    | removeClient c => simp [chanScan, ih hr]

/-- The coordinator state invariant: client identities are distinct (each
`*Client` is one map key) and the channel of every live client is open. -/
def GoodB (s : HubState) : Bool :=
  decide ((s.entries.map Entry.cid).Nodup ∧
    ∀ e ∈ s.entries, e.live = true → e.closed = false)

theorem goodB_iff (s : HubState) :
    GoodB s = true ↔ ((s.entries.map Entry.cid).Nodup ∧
      ∀ e ∈ s.entries, e.live = true → e.closed = false) := by
  simp [GoodB]

/-- The clients the register events of a sequence concern. -/
def regCids : List Event → List Nat
  | [] => []
  | .register c :: rest => c :: regCids rest
  | .unregister _ :: rest => regCids rest
  | .broadcast _ :: rest => regCids rest

/-- Each register event of the sequence concerns a fresh client: a new
`*Client` struct is built in `serveWs` for every upgraded connection and
registered exactly once, so no register ever reuses an existing key. -/
def freshRegs (s : HubState) (evs : List Event) : Bool :=
  decide ((regCids evs).Nodup ∧ ∀ c ∈ regCids evs, entryFor s c = none)

theorem not_mem_cids_of_entryFor_none {s : HubState} {c : Nat}
    (h : entryFor s c = none) : c ∉ s.entries.map Entry.cid := by
  unfold entryFor at h
  rw [List.find?_eq_none] at h
  intro hmem
  rw [List.mem_map] at hmem
  obtain ⟨e, he, hc⟩ := hmem
  exact (h e he) (by simp [hc])

theorem cids_map_pres {f : Entry → Entry} (hf : ∀ e, (f e).cid = e.cid)
    (l : List Entry) : (l.map f).map Entry.cid = l.map Entry.cid := by
  rw [List.map_map]
  apply List.map_congr_left
  intro e _
  exact hf e

theorem entryFor_none_preserved (s : HubState) (e : Event) (c : Nat)
    (h : entryFor s c = none) (hne : ∀ c2, e = .register c2 → c2 ≠ c) :
    entryFor (hubStep s e) c = none := by
  cases e with
  | register c2 =>
    have hc2 : ¬c2 = c := hne c2 rfl
    rw [entryFor_register]
    by_cases hs : (entryFor s c2).isSome = true
    · rw [if_pos hs, h]
      rfl
    · rw [if_neg hs, if_neg hc2]
      exact h
  | unregister c2 =>
    rw [entryFor_unregister]
    by_cases hl : isLive s c2 = true
    · rw [if_pos hl, h]
      rfl
    · rw [if_neg hl]
      exact h
  | broadcast m =>
    rw [entryFor_broadcast, h]
    rfl

/-- One coordinator step preserves the state invariant, provided a register
event concerns a fresh client. -/
theorem good_preserved (s : HubState) (e : Event)
    (hg : GoodB s = true)
    (hfresh : ∀ c, e = .register c → entryFor s c = none) :
    GoodB (hubStep s e) = true := by
  rw [goodB_iff] at hg ⊢
  obtain ⟨hnd, hlo⟩ := hg
  cases e with
  | register c =>
    have hf : entryFor s c = none := hfresh c rfl
    have hns : ¬(entryFor s c).isSome = true := by
      rw [hf]
      simp
    have hs : hubStep s (.register c) = ⟨s.entries ++ [⟨c, [], false, true⟩]⟩ := by
      simp [hubStep, hubStepT, hns]
    rw [hs]
    constructor
    · rw [List.map_append, List.nodup_append]
      refine ⟨hnd, by simp, ?_⟩
      intro x hx hx1
      have hxc : x = c := by
        simpa using hx1
      subst hxc
      exact not_mem_cids_of_entryFor_none hf hx
    · intro e2 he2
      rw [List.mem_append] at he2
      rcases he2 with h1 | h2
      · exact hlo e2 h1
      · have : e2 = ⟨c, [], false, true⟩ := by simpa using h2
        subst this
        intro
        rfl
  | unregister c =>
    by_cases hl : isLive s c = true
    · have hs : hubStep s (.unregister c) = ⟨s.entries.map (unregisterEntry c)⟩ := by
        simp [hubStep, hubStepT, hl]
      rw [hs]
      constructor
      · rw [cids_map_pres (cid_unregisterEntry c)]
        exact hnd
      · intro e2 he2
        rw [List.mem_map] at he2
        obtain ⟨e0, he0, rfl⟩ := he2
        unfold unregisterEntry
        by_cases hc : (e0.cid == c) = true
        · rw [if_pos hc]
          intro hlv
          cases hlv
        · rw [if_neg hc]
          exact hlo e0 he0
    · have hs : hubStep s (.unregister c) = s := by
        simp [hubStep, hubStepT, hl]
      rw [hs]
      exact ⟨hnd, hlo⟩
  | broadcast m =>
    have hs : hubStep s (.broadcast m) = ⟨s.entries.map (deliverEntry m)⟩ := rfl
    rw [hs]
    constructor
    · rw [cids_map_pres (cid_deliverEntry m)]
      exact hnd
    · intro e2 he2
      rw [List.mem_map] at he2
      obtain ⟨e0, he0, rfl⟩ := he2
      unfold deliverEntry
      by_cases hlv : e0.live = true
      · rw [if_pos hlv]
        by_cases hsp : e0.buf.length < sendChanCapacity
        · rw [if_pos hsp]
          intro
          exact hlo e0 he0 hlv
        · rw [if_neg hsp]
          intro hlv2
          cases hlv2
      · rw [if_neg hlv]
        exact hlo e0 he0

/-- Freshness of the register events transports across one step. -/
theorem freshRegs_cons (s : HubState) (e : Event) (evs : List Event)
    (h : freshRegs s (e :: evs) = true) :
    freshRegs (hubStep s e) evs = true ∧
      ∀ c, e = .register c → entryFor s c = none := by
  unfold freshRegs at h ⊢
  rw [decide_eq_true_eq] at h
  rw [decide_eq_true_eq]
  cases e with
  | register c =>
    have hcons : regCids (Event.register c :: evs) = c :: regCids evs := rfl
    rw [hcons] at h
    obtain ⟨hnd, hall⟩ := h
    have hfc : entryFor s c = none := hall c (by simp)
    rw [List.nodup_cons] at hnd
    refine ⟨⟨hnd.2, ?_⟩, fun c2 hc2 => by cases hc2; exact hfc⟩
    intro x hx
    have hxs : entryFor s x = none := hall x (by simp [hx])
    apply entryFor_none_preserved s _ x hxs
    intro c2 hc2 hc2x
    cases hc2
    subst hc2x
    exact hnd.1 hx
  | unregister c =>
    have hcons : regCids (Event.unregister c :: evs) = regCids evs := rfl
    rw [hcons] at h
    obtain ⟨hnd, hall⟩ := h
    refine ⟨⟨hnd, ?_⟩, fun c2 hc2 => by cases hc2⟩
    intro x hx
    apply entryFor_none_preserved s _ x (hall x hx)
    intro c2 hc2
    cases hc2
  | broadcast m =>
    have hcons : regCids (Event.broadcast m :: evs) = regCids evs := rfl
    rw [hcons] at h
    obtain ⟨hnd, hall⟩ := h
    refine ⟨⟨hnd, ?_⟩, fun c2 hc2 => by cases hc2⟩
    intro x hx
    apply entryFor_none_preserved s _ x (hall x hx)
    intro c2 hc2
    cases hc2

/-- Closed flag of the channel of one client within an entry list. -/
def closedOf (es : List Entry) (cid : Nat) : Bool :=
  match es.find? (fun e => e.cid == cid) with
  | some e => e.closed
  | none => false

theorem actCid_deliverActs {m : Msg} {e : Entry} {a : Act}
    (ha : a ∈ deliverActs m e) : actCid a = e.cid := by
  unfold deliverActs at ha
  by_cases hlv : e.live = true
  · rw [if_pos hlv] at ha
    by_cases hsp : e.buf.length < sendChanCapacity
    · rw [if_pos hsp] at ha
      have : a = .enqueue e.cid m := by simpa using ha
      subst this
      rfl
    · rw [if_neg hsp] at ha
      rcases (by simpa using ha : a = .closeChan e.cid ∨ a = .removeClient e.cid) with
        h1 | h1 <;> (subst h1; rfl)
  · rw [if_neg hlv] at ha
    simp at ha

theorem actCid_flatten_mem {m : Msg} {rest : List Entry} {a : Act}
    (ha : a ∈ (rest.map (deliverActs m)).flatten) :
    actCid a ∈ rest.map Entry.cid := by
  rw [List.mem_flatten] at ha
  obtain ⟨l, hl, hal⟩ := ha
  rw [List.mem_map] at hl
  obtain ⟨e, he, rfl⟩ := hl
  rw [List.mem_map]
  exact ⟨e, he, (actCid_deliverActs hal).symm⟩

/-- The fan-out loop of one broadcast respects the per-channel discipline:
starting from the recorded closed flag of any one client, the actions the
loop emits never close twice and never enqueue onto a closed channel, and
the final flag is the closed flag after the fan-out. -/
theorem chanScan_broadcast (m : Msg) (cid : Nat) (es : List Entry)
    (hnd : (es.map Entry.cid).Nodup)
    (hlo : ∀ e ∈ es, e.live = true → e.closed = false) :
    chanScan cid (closedOf es cid) ((es.map (deliverActs m)).flatten)
      = some (closedOf (es.map (deliverEntry m)) cid) := by
  induction es with
  | nil => rfl
  | cons e rest ih =>
    rw [List.map_cons] at hnd
    have hnd2 := List.nodup_cons.mp hnd
    rw [List.map_cons, List.map_cons]
    have hflat : ((deliverActs m e :: rest.map (deliverActs m)).flatten)
        = deliverActs m e ++ (rest.map (deliverActs m)).flatten := rfl
    rw [hflat, chanScan_append]
    by_cases hc : (e.cid == cid) = true
    · -- e is the (unique) entry of this client
      have hcid : e.cid = cid := by simpa using hc
      have hstart : closedOf (e :: rest) cid = e.closed := by
        unfold closedOf
        rw [List.find?_cons, hc]
      have hrestskip : ∀ a ∈ (rest.map (deliverActs m)).flatten, actCid a ≠ cid := by
        intro a ha hac
        apply hnd2.1
        rw [hcid, ← hac]
        exact actCid_flatten_mem ha
      have hend : closedOf (deliverEntry m e :: rest.map (deliverEntry m)) cid
          = (deliverEntry m e).closed := by
        unfold closedOf
        rw [List.find?_cons]
        have : ((deliverEntry m e).cid == cid) = true := by
          rw [cid_deliverEntry]
          exact hc
        rw [this]
      rw [hstart, hend]
      by_cases hlv : e.live = true
      · have hcl : e.closed = false := hlo e (by simp) hlv
        rw [hcl]
        by_cases hsp : e.buf.length < sendChanCapacity
        · have hacts : deliverActs m e = [.enqueue e.cid m] := by
            simp [deliverActs, hlv, hsp]
          have hdel : (deliverEntry m e).closed = false := by
            simp [deliverEntry, hlv, hsp, hcl]
          rw [hacts, hdel]
          have hscan : chanScan cid false [.enqueue e.cid m] = some false := by
            simp [chanScan, hc]
          rw [hscan]
          exact chanScan_skip cid false _ hrestskip
        · have hacts : deliverActs m e = [.closeChan e.cid, .removeClient e.cid] := by
            simp [deliverActs, hlv, hsp]
          have hdel : (deliverEntry m e).closed = true := by
            simp [deliverEntry, hlv, hsp]
          rw [hacts, hdel]
          have hscan : chanScan cid false [.closeChan e.cid, .removeClient e.cid]
              = some true := by
            simp [chanScan, hc]
          rw [hscan]
          exact chanScan_skip cid true _ hrestskip
      · have hlv0 : e.live = false := by
          cases hv : e.live
          · rfl
          · exact absurd hv hlv
        have hacts : deliverActs m e = [] := by
          simp [deliverActs, hlv0]
        have hdel : deliverEntry m e = e := by
          simp [deliverEntry, hlv0]
        rw [hacts, hdel]
        show chanScan cid e.closed _ = some e.closed
        exact chanScan_skip cid e.closed _ hrestskip
    · -- some other client: its actions are invisible to this scan
      have hstart : closedOf (e :: rest) cid = closedOf rest cid := by
        unfold closedOf
        rw [List.find?_cons]
        rw [Bool.not_eq_true] at hc
        rw [hc]
      have hend : closedOf (deliverEntry m e :: rest.map (deliverEntry m)) cid
          = closedOf (rest.map (deliverEntry m)) cid := by
        unfold closedOf
        rw [List.find?_cons]
        have : ((deliverEntry m e).cid == cid) = false := by
          rw [cid_deliverEntry]
          rw [Bool.not_eq_true] at hc
          exact hc
        rw [this]
      have hskip : chanScan cid (closedOf (e :: rest) cid) (deliverActs m e)
          = some (closedOf (e :: rest) cid) := by
        apply chanScan_skip
        intro a ha hac
        rw [actCid_deliverActs ha] at hac
        rw [hac] at hc
        simp at hc
      rw [hskip]
      show chanScan cid (closedOf (e :: rest) cid) _ = _
      rw [hstart, hend]
      exact ih hnd2.2 (fun x hx => hlo x (by simp [hx]))

/-- One coordinator step respects the per-channel discipline of every
client, carrying the closed flag faithfully. -/
theorem chanScan_hubStep (s : HubState) (e : Event) (cid : Nat)
    (hg : GoodB s = true)
    (hfresh : ∀ c, e = .register c → entryFor s c = none) :
    chanScan cid (isClosedB s cid) (hubStepT s e).2
      = some (isClosedB (hubStep s e) cid) := by
  cases e with
  | register c =>
    have hf : entryFor s c = none := hfresh c rfl
    have hns : ¬(entryFor s c).isSome = true := by
      rw [hf]
      simp
    have hT : (hubStepT s (.register c)).2 = [.addClient c] := by
      simp [hubStepT, hns]
    rw [hT]
    have hscan : chanScan cid (isClosedB s cid) [.addClient c]
        = some (isClosedB s cid) := rfl
    rw [hscan]
    congr 1
    unfold isClosedB
    rw [entryFor_register, if_neg hns]
    by_cases hc : c = cid
    · subst hc
      rw [if_pos rfl, hf]
    · rw [if_neg hc]
  | unregister c =>
    by_cases hl : isLive s c = true
    · have hT : (hubStepT s (.unregister c)).2 = [.removeClient c, .closeChan c] := by
        simp [hubStepT, hl]
      rw [hT]
      by_cases hc : (c == cid) = true
      · have hceq : c = cid := by simpa using hc
        subst hceq
        have hgood := (goodB_iff s).mp hg
        have hcl : isClosedB s c = false := by
          unfold isLive at hl
          unfold isClosedB
          cases hfind : entryFor s c with
          | none => rfl
          | some e0 =>
            rw [hfind] at hl
            exact hgood.2 e0 (List.mem_of_find?_eq_some hfind) hl
        rw [hcl]
        have hscan : chanScan c false [.removeClient c, .closeChan c] = some true := by
          simp [chanScan]
        rw [hscan]
        congr 1
        unfold isClosedB
        rw [entryFor_unregister, if_pos hl]
        cases hfind : entryFor s c with
        | none =>
          unfold isLive at hl
          rw [hfind] at hl
          cases hl
        | some e0 =>
          have hbeq : (e0.cid == c) = true := by
            simp [entryFor_cid hfind]
          simp [unregisterEntry, hbeq]
      · have hscan : chanScan cid (isClosedB s cid) [.removeClient c, .closeChan c]
            = some (isClosedB s cid) := by
          simp [chanScan, hc]
        rw [hscan]
        congr 1
        unfold isClosedB
        rw [entryFor_unregister, if_pos hl]
        cases hfind : entryFor s cid with
        | none => rfl
        | some e0 =>
          have hne : (e0.cid == c) = false := by
            apply beq_false_of_ne
            rw [entryFor_cid hfind]
            intro hq
            rw [hq] at hc
            simp at hc
          simp [unregisterEntry, hne]
    · have hs : hubStep s (.unregister c) = s := by
        simp [hubStep, hubStepT, hl]
      have hT2 : (hubStepT s (.unregister c)).2 = [] := by
        simp [hubStepT, hl]
      rw [hT2, hs]
      rfl
  | broadcast m =>
    have hgood := (goodB_iff s).mp hg
    exact chanScan_broadcast m cid s.entries hgood.1 hgood.2

/-- The whole coordinator trace respects the per-channel discipline of
every client, from any invariant-satisfying state, under fresh
registrations. -/
theorem chanScan_hubRunT (evs : List Event) (s : HubState) (cid : Nat)
    (hg : GoodB s = true) (hfresh : freshRegs s evs = true) :
    chanScan cid (isClosedB s cid) (hubRunT s evs).2
      = some (isClosedB (hubRunT s evs).1 cid) := by
  induction evs generalizing s with
  | nil => rfl
  | cons e rest ih =>
    obtain ⟨hfr2, hfe⟩ := freshRegs_cons s e rest hfresh
    have hg2 := good_preserved s e hg hfe
    have hstep := chanScan_hubStep s e cid hg hfe
    have hT : (hubRunT s (e :: rest)).2
        = (hubStepT s e).2 ++ (hubRunT (hubStep s e) rest).2 := rfl
    have hT1 : (hubRunT s (e :: rest)).1 = (hubRunT (hubStep s e) rest).1 := rfl
    rw [hT, hT1, chanScan_append, hstep]
    exact ih (hubStep s e) hg2 hfr2

/-- Claim C3: along any coordinator event sequence from an
invariant-satisfying state in which each register concerns a fresh client
(as `serveWs` guarantees, building a new `*Client` per connection), the
trace of primitive actions closes each client channel at most once and
never enqueues onto a channel after closing it --- `chanScan` accepts the
trace for every client.  Moreover processing a second unregister for the
same entry is a no-op with no emitted actions (the `ok` guard of line 62
fails), identical in observable effect to processing it once. -/
theorem hub_channel_close_once (s : HubState) (evs : List Event) (cid : Nat)
    (hg : GoodB s = true) (hfresh : freshRegs s evs = true) :
    (chanScan cid (isClosedB s cid) (hubRunT s evs).2).isSome = true ∧
      ∀ (t : HubState) (c : Nat),
        hubStepT (hubStep t (.unregister c)) (.unregister c)
          = (hubStep t (.unregister c), []) := by
  constructor
  · rw [chanScan_hubRunT evs s cid hg hfresh]
    rfl
  · intro t c
    have hl : isLive (hubStep t (.unregister c)) c = false := by
      rw [isLive_unregister]
      simp
    simp [hubStepT, hl]

/-- Concrete instance of claim C3: a run with registrations, a broadcast, a
backpressure-free unregister processed twice, and another broadcast passes
the scan for client 1. -/
theorem hub_channel_close_once_witness :
    GoodB hubInit = true ∧
      freshRegs hubInit [.register 1, .register 2, .broadcast [7], .unregister 1,
        .unregister 1, .broadcast [8]] = true ∧
      (chanScan 1 (isClosedB hubInit 1)
        (hubRunT hubInit [.register 1, .register 2, .broadcast [7], .unregister 1,
          .unregister 1, .broadcast [8]]).2).isSome = true :=
  ⟨by decide, by decide,
    (hub_channel_close_once hubInit
      [.register 1, .register 2, .broadcast [7], .unregister 1,
        .unregister 1, .broadcast [8]] 1 (by decide) (by decide)).1⟩

end MatchingApp
